import Mathlib

/-!
Shallow embedding of `src/nn/layers.py`, a minimal differentiable-function
engine for feed-forward neural-network layers (classes `Function`, `Layer`,
`Linear`, `Sigmoid`).

Modelling conventions:
* NumPy 2-D arrays become lists of rows of rationals (`Mat`).  Floating-point
  rounding is abstracted away: all arithmetic is exact over `ℚ`.
* A Python method's return value is a `PyVal`: either `none` (Python `None`,
  what a `pass` body returns) or `some` matrix.
* A layer instance (`self`) is a `FnState`: its parameters (`inner`) together
  with the two attributes assigned by `Function.__call__`, each of which may
  still be absent (`none`) before the first call.
* Where a claim is about raising exceptions, the method is modelled with
  result type `PyResult = Except String PyVal`; an uncaught Python exception
  is `Except.error` with the interpreter's message.
-/

/-- A 2-D numeric array: a list of rows of rationals. -/
abbrev Mat : Type := List (List ℚ)

/-- A Python value returned by a method: `None` or a matrix. -/
abbrev PyVal : Type := Option Mat

/-- Result of invoking a Python method: an uncaught exception or a value. -/
abbrev PyResult : Type := Except String PyVal

/-- Shape predicate: `m` has `r` rows, each of length `c` (NumPy shape `(r, c)`). -/
def isShape (m : Mat) (r c : ℕ) : Prop :=
  m.length = r ∧ ∀ row ∈ m, row.length = c

instance (m : Mat) (r c : ℕ) : Decidable (isShape m r c) := by
  unfold isShape; infer_instance

/-- Entry access `m[i][j]`, defaulting to `0` out of range. -/
def entry (m : Mat) (i j : ℕ) : ℚ :=
  (m.getD i []).getD j 0

/-- NumPy `np.dot` on 2-D arrays: `(a · b)[i][j] = Σ k, a[i][k] * b[k][j]`,
with `k` ranging over the row length of `a` (equal to the row count of `b`
whenever the shapes are compatible, which NumPy requires). -/
def matmul (a b : Mat) : Mat :=
  a.map (fun row =>
    (List.range (b.headD []).length).map (fun j =>
      ((List.range row.length).map (fun k => row.getD k 0 * (b.getD k []).getD j 0)).sum))

/-- NumPy transpose `m.T` of a rectangular 2-D array: `(m.T)[i][j] = m[j][i]`. -/
def transpose (m : Mat) : Mat :=
  (List.range (m.headD []).length).map (fun j => m.map (fun row => row.getD j 0))

/-- NumPy broadcasting `y + b` for `b` of shape `(1, c)`: the single row of `b`
is added to every row of `y`. -/
def broadcastAdd (y b : Mat) : Mat :=
  y.map (fun row => List.zipWith (· + ·) row (b.headD []))

/-- The `(r, c)` matrix with entry `f i j` at position `(i, j)`. -/
def mkMat (r c : ℕ) (f : ℕ → ℕ → ℚ) : Mat :=
  (List.range r).map (fun i => (List.range c).map (f i))

section BasicLemmas

theorem getD_map_of_lt {α β : Type} (f : α → β) (l : List α) (i : ℕ) (d : β) (d₀ : α)
    (h : i < l.length) : (l.map f).getD i d = f (l.getD i d₀) := by
  induction l generalizing i with
  | nil => simp at h
  | cons a t ih =>
    cases i with
    | zero => rfl
    | succ n =>
      simp only [List.map_cons, List.getD_cons_succ]
      exact ih n (by simpa using Nat.lt_of_succ_lt_succ h)

theorem getD_range_map {β : Type} (f : ℕ → β) (n i : ℕ) (d : β) (h : i < n) :
    ((List.range n).map f).getD i d = f i := by
  simp [List.getD, List.getElem?_map, List.getElem?_range h]

theorem getD_zipWith_add (u v : List ℚ) (j : ℕ) (hu : j < u.length) (hv : j < v.length) :
    (List.zipWith (· + ·) u v).getD j 0 = u.getD j 0 + v.getD j 0 := by
  induction u generalizing v j with
  | nil => simp at hu
  | cons a t ih =>
    cases v with
    | nil => simp at hv
    | cons b s =>
      cases j with
      | zero => rfl
      | succ n =>
        simp only [List.zipWith_cons_cons, List.getD_cons_succ]
        exact ih s n (by simpa using Nat.lt_of_succ_lt_succ hu)
          (by simpa using Nat.lt_of_succ_lt_succ hv)

end BasicLemmas

/-! ### The `Function` protocol (`class Function` in `layers.py`)

`Function.__call__` runs `self.gradX_local = self.gradX(x)` and then
`self.output = self.forward(x)`, returning `self.output`.  A subclass supplies
the `forward` and `gradX` implementations; they read only the instance's own
parameters (`Linear` reads `self.weight`/`self.bias`, `Sigmoid` reads nothing)
and the call's input, never the two cache attributes. -/

/-- The two operations a `Function` subclass overrides and that `__call__`
invokes, as functions of the subclass's parameter state `σ` and the input. -/
structure FnOps (σ : Type) where
  forward : σ → Mat → PyVal
  gradX : σ → Mat → PyVal

/-- A `Function` instance (`self`): the subclass parameters plus the two
attributes assigned by `__call__`.  `none` means the attribute has never been
assigned (no call has happened yet); `some v` means it holds Python value `v`. -/
structure FnState (σ : Type) where
  inner : σ
  gradX_local : Option PyVal
  output : Option PyVal

/-- The body of `Function.__call__`: first compute `gradX` at the input and
store it in `self.gradX_local`, then compute `forward`, store it in
`self.output`, and return it. -/
def Function.call {σ : Type} (ops : FnOps σ) (s : FnState σ) (x : Mat) :
    FnState σ × PyVal :=
  let g : PyVal := ops.gradX s.inner x
  let s1 : FnState σ := ⟨s.inner, some g, s.output⟩
  let y : PyVal := ops.forward s1.inner x
  (⟨s1.inner, s1.gradX_local, some y⟩, y)

/-- The inherited stub `Function.backward` (body `pass`): returns `None` and
touches no attribute. -/
def Function.backwardStub {σ : Type} (s : FnState σ) (dy : Mat) :
    FnState σ × PyVal :=
  (s, none)

/-- The inherited stub `Function.gradX` (body `pass`): returns `None`. -/
def Function.gradXStub {σ : Type} (s : FnState σ) (x : Mat) :
    FnState σ × PyVal :=
  (s, none)

/-! ### The `Layer` protocol (`class Layer(Function)`)

`Layer` adds `init_weights`, `update_weights` and `gradW`, all with `pass`
bodies; a body of `pass` returns `None` and assigns nothing. -/

/-- The inherited stub `Layer.update_weights` (body `pass`): accepts any
arguments, returns `None`, alters no state, raises nothing. -/
def Layer.update_weightsStub {σ : Type} (s : FnState σ) (args : List Mat) :
    FnState σ × PyResult :=
  (s, Except.ok none)

/-- The inherited stub `Layer.gradW` (body `pass`): accepts the input `x`,
returns `None`, alters no state, raises nothing. -/
def Layer.gradWStub {σ : Type} (s : FnState σ) (x : Mat) :
    FnState σ × PyResult :=
  (s, Except.ok none)

/-! ### The `Linear` layer -/

/-- The parameters a `Linear` instance owns: `self.weight` of shape
`(in_dim, out_dim)` and `self.bias` of shape `(1, out_dim)`. -/
structure LinearParams where
  weight : Mat
  bias : Mat

/-- `Linear.forward`: `np.dot(x, self.weight) + self.bias`, the bias row
broadcast over the batch dimension. -/
def Linear.forward (p : LinearParams) (x : Mat) : Mat :=
  broadcastAdd (matmul x p.weight) p.bias

/-- `Linear.backward`: `dy.dot(self.weight.T)`.  The body reads only
`self.weight`; the cached `gradX_local` is never consulted. -/
def Linear.backward (p : LinearParams) (dy : Mat) : Mat :=
  matmul dy (transpose p.weight)

/-- `Linear.gradX`: `return self.weight`, whatever the input `x` is. -/
def Linear.gradX (p : LinearParams) (x : Mat) : Mat :=
  p.weight

/-- `Linear.gradW`: a `pass` body, so it accepts `x` and returns `None`. -/
def Linear.gradW (p : LinearParams) (x : Mat) : PyVal :=
  none

/-- `Linear.update_weights`: a `pass` body; the instance is left untouched and
`None` is returned, whatever the arguments. -/
def Linear.update_weights (s : FnState LinearParams) (args : List Mat) :
    FnState LinearParams × PyVal :=
  (s, none)

/-- The `FnOps` record a `Linear` instance presents to `Function.__call__`. -/
def Linear.ops : FnOps LinearParams where
  forward := fun p x => some (Linear.forward p x)
  gradX := fun p x => some (Linear.gradX p x)

/-- Calling a `Linear` instance as a function (`Function.__call__` with the
`Linear` overrides of `forward` and `gradX`). -/
def Linear.call (s : FnState LinearParams) (x : Mat) :
    FnState LinearParams × PyVal :=
  Function.call Linear.ops s x

/-- Invoking the method `Linear.backward` on an instance, with the Python
exception channel made explicit.  The body `return dy.dot(self.weight.T)`
reads no cache attribute, so (for shape-compatible `dy`, which the layer
contract requires) no exception can be raised: the result is always `ok`.
The instance is returned unchanged alongside, since the body assigns nothing. -/
def Linear.backwardCall (s : FnState LinearParams) (dy : Mat) :
    FnState LinearParams × PyResult :=
  (s, Except.ok (some (Linear.backward s.inner dy)))

/-- Invoking the method `Linear.forward` on an instance: the body assigns no
attribute, so the instance is returned unchanged alongside the value. -/
def Linear.forwardCall (s : FnState LinearParams) (x : Mat) :
    FnState LinearParams × PyVal :=
  (s, some (Linear.forward s.inner x))

/-- Invoking the method `Linear.gradX` on an instance: `return self.weight`
assigns nothing. -/
def Linear.gradXCall (s : FnState LinearParams) (x : Mat) :
    FnState LinearParams × PyVal :=
  (s, some (Linear.gradX s.inner x))

/-- Invoking the method `Linear.gradW` on an instance: a `pass` body assigns
nothing and returns `None`. -/
def Linear.gradWCall (s : FnState LinearParams) (x : Mat) :
    FnState LinearParams × PyVal :=
  (s, Linear.gradW s.inner x)

/-- `Linear.init_weights(in_dim, out_dim)`, with Python's run-time failures
made explicit and evaluated in source order:
* `scale = 1 / sqrt(in_dim)` raises `ValueError: math domain error` when
  `in_dim < 0` and `ZeroDivisionError: float division by zero` when
  `in_dim == 0`;
* `np.random.rand(in_dim, out_dim)` raises
  `ValueError: negative dimensions are not allowed` when `out_dim < 0`;
* otherwise `self.weight = scale * (np.random.rand(in_dim, out_dim) - 0.5)`
  and `self.bias = scale * (np.random.rand(1, out_dim) - 0.5)`.
The uniform samples in `[0, 1)` are supplied by `randW`/`randB`, and the
floating-point value of `sqrt(in_dim)` is abstracted as the parameter
`sqrtInDim` (its exact value is irrational and no claim depends on it). -/
def Linear.init_weights (in_dim out_dim : Int) (randW randB : ℕ → ℕ → ℚ)
    (sqrtInDim : ℚ) : Except String LinearParams :=
  if in_dim < 0 then Except.error "math domain error"
  else if in_dim = 0 then Except.error "float division by zero"
  else if out_dim < 0 then Except.error "negative dimensions are not allowed"
  else
    let scale : ℚ := 1 / sqrtInDim
    Except.ok
      { weight := mkMat in_dim.toNat out_dim.toNat
          (fun i j => scale * (randW i j - 1/2))
        bias := mkMat 1 out_dim.toNat
          (fun i j => scale * (randB i j - 1/2)) }

/-- `Linear.__init__(in_dim, out_dim)`: calls `init_weights` once; on success
the fresh instance has neither cache attribute set. -/
def Linear.init (in_dim out_dim : Int) (randW randB : ℕ → ℕ → ℚ)
    (sqrtInDim : ℚ) : Except String (FnState LinearParams) :=
  (Linear.init_weights in_dim out_dim randW randB sqrtInDim).map
    (fun p => ⟨p, none, none⟩)

/-! ### The `Sigmoid` layer -/

/-- Modelled from the spec: `sigmoid` lives in `nn/functional.py`, which is not
part of the sources; per the spec it applies the logistic function
`1 / (1 + e^-x)` elementwise.  The floating-point exponential is abstracted as
the parameter `expFn` (no claim depends on its value). -/
def sigmoid (expFn : ℚ → ℚ) (x : Mat) : Mat :=
  x.map (List.map (fun t => 1 / (1 + expFn (-t))))

/-- Modelled from the spec: `sigmoid_prime` from `nn/functional.py` is the
elementwise derivative `sigmoid(x) * (1 - sigmoid(x))`. -/
def sigmoid_prime (expFn : ℚ → ℚ) (x : Mat) : Mat :=
  x.map (List.map (fun t =>
    (1 / (1 + expFn (-t))) * (1 - 1 / (1 + expFn (-t)))))

/-- `Sigmoid` owns no parameters: `σ = Unit`. -/
abbrev SigmoidParams : Type := Unit

/-- `Sigmoid.forward`: `return sigmoid(x)`. -/
def Sigmoid.forward (expFn : ℚ → ℚ) (x : Mat) : Mat :=
  sigmoid expFn x

/-- Flattening `reshape(-1)` of a 2-D array into its row-major element list. -/
def flattenMat (m : Mat) : List ℚ :=
  m.flatten

/-- `np.diag(v)` for a vector `v`: the square matrix with `v` on the diagonal. -/
def diagMat (v : List ℚ) : Mat :=
  (List.range v.length).map (fun i =>
    (List.range v.length).map (fun j => if i = j then v.getD i 0 else 0))

/-- `Sigmoid.dx`: `np.diag(sigmoid_prime(x).reshape(-1))`.  Note the method is
named `dx`, not `gradX`; nothing in `layers.py` ever calls it. -/
def Sigmoid.dx (expFn : ℚ → ℚ) (x : Mat) : Mat :=
  diagMat (flattenMat (sigmoid_prime expFn x))

/-- The `FnOps` record a `Sigmoid` instance presents to `Function.__call__`:
`forward` is overridden, while `gradX` is the inherited `Function.gradX` stub
(body `pass`, returning `None`) — `dx` is never wired in. -/
def Sigmoid.ops (expFn : ℚ → ℚ) : FnOps SigmoidParams where
  forward := fun _ x => some (Sigmoid.forward expFn x)
  gradX := fun _ _ => none

/-- Calling a `Sigmoid` instance as a function. -/
def Sigmoid.call (expFn : ℚ → ℚ) (s : FnState SigmoidParams) (x : Mat) :
    FnState SigmoidParams × PyVal :=
  Function.call (Sigmoid.ops expFn) s x

/-- Invoking `backward` on a `Sigmoid` instance: the method resolves to the
inherited `Function.backward` stub. -/
def Sigmoid.backward (s : FnState SigmoidParams) (dy : Mat) :
    FnState SigmoidParams × PyVal :=
  Function.backwardStub s dy

/-- Invoking `update_weights` on a `Sigmoid` instance: resolves to the
inherited `Layer.update_weights` stub. -/
def Sigmoid.update_weights (s : FnState SigmoidParams) (args : List Mat) :
    FnState SigmoidParams × PyResult :=
  Layer.update_weightsStub s args

/-- Invoking `gradW` on a `Sigmoid` instance: resolves to the inherited
`Layer.gradW` stub. -/
def Sigmoid.gradW (s : FnState SigmoidParams) (x : Mat) :
    FnState SigmoidParams × PyResult :=
  Layer.gradWStub s x

/-! ### Shape and entry lemmas for the matrix primitives -/

theorem getD_mem_of_lt {α : Type} (l : List α) (i : ℕ) (d : α) (h : i < l.length) :
    l.getD i d ∈ l := by
  induction l generalizing i with
  | nil => simp at h
  | cons a t ih =>
    cases i with
    | zero => exact List.mem_cons_self a t
    | succ n =>
      exact List.mem_cons_of_mem a (ih n (by simpa using Nat.lt_of_succ_lt_succ h))

theorem headD_eq_getD_zero {α : Type} (l : List α) (d : α) :
    l.headD d = l.getD 0 d := by
  cases l <;> rfl

theorem headD_length_of_isShape (m : Mat) (r c : ℕ) (h : isShape m r c)
    (hr : 0 < r) : (m.headD []).length = c := by
  cases m with
  | nil =>
    exfalso
    have := h.1
    simp at this
    omega
  | cons a t => exact h.2 a (List.mem_cons_self a t)

theorem matmul_isShape (x W : Mat) (B K N : ℕ) (hx : isShape x B K)
    (hW : isShape W K N) (hK : 0 < K) : isShape (matmul x W) B N := by
  constructor
  · simp [matmul, hx.1]
  · intro row hrow
    simp only [matmul, List.mem_map] at hrow
    obtain ⟨r, _, hrow⟩ := hrow
    rw [← hrow, List.length_map, List.length_range,
      headD_length_of_isShape W K N hW hK]

theorem matmul_entry (x W : Mat) (B K N : ℕ) (hx : isShape x B K)
    (hW : isShape W K N) (hK : 0 < K) (i j : ℕ) (hi : i < B) (hj : j < N) :
    entry (matmul x W) i j =
      ((List.range K).map (fun k => entry x i k * entry W k j)).sum := by
  have hix : i < x.length := by rw [hx.1]; exact hi
  have hrowlen : (x.getD i []).length = K :=
    hx.2 (x.getD i []) (getD_mem_of_lt x i [] hix)
  unfold entry matmul
  rw [getD_map_of_lt _ x i [] [] hix]
  rw [headD_length_of_isShape W K N hW hK]
  rw [getD_range_map _ N j 0 hj]
  rw [hrowlen]

theorem broadcastAdd_isShape (y b : Mat) (B N : ℕ) (hy : isShape y B N)
    (hb : isShape b 1 N) : isShape (broadcastAdd y b) B N := by
  constructor
  · simp [broadcastAdd, hy.1]
  · intro row hrow
    simp only [broadcastAdd, List.mem_map] at hrow
    obtain ⟨r, hr, hrow⟩ := hrow
    rw [← hrow, List.length_zipWith, hy.2 r hr,
      headD_length_of_isShape b 1 N hb Nat.one_pos, Nat.min_self]

theorem broadcastAdd_entry (y b : Mat) (B N : ℕ) (hy : isShape y B N)
    (hb : isShape b 1 N) (i j : ℕ) (hi : i < B) (hj : j < N) :
    entry (broadcastAdd y b) i j = entry y i j + entry b 0 j := by
  have hiy : i < y.length := by rw [hy.1]; exact hi
  have hrowlen : (y.getD i []).length = N :=
    hy.2 (y.getD i []) (getD_mem_of_lt y i [] hiy)
  unfold entry broadcastAdd
  rw [getD_map_of_lt _ y i [] [] hiy]
  rw [getD_zipWith_add _ _ j (by rw [hrowlen]; exact hj)
    (by rw [headD_length_of_isShape b 1 N hb Nat.one_pos]; exact hj)]
  rw [headD_eq_getD_zero]

theorem transpose_isShape (W : Mat) (K N : ℕ) (hW : isShape W K N)
    (hK : 0 < K) : isShape (transpose W) N K := by
  constructor
  · rw [transpose, headD_length_of_isShape W K N hW hK, List.length_map,
      List.length_range]
  · intro row hrow
    simp only [transpose, List.mem_map] at hrow
    obtain ⟨r, _, hrow⟩ := hrow
    rw [← hrow, List.length_map, hW.1]

theorem transpose_entry (W : Mat) (K N : ℕ) (hW : isShape W K N) (hK : 0 < K)
    (i j : ℕ) (hi : i < N) (hj : j < K) :
    entry (transpose W) i j = entry W j i := by
  unfold entry transpose
  rw [headD_length_of_isShape W K N hW hK]
  rw [getD_range_map _ N i [] hi]
  rw [getD_map_of_lt _ W j 0 [] (by rw [hW.1]; exact hj)]

/-! ### Claim theorems -/

/-- C1: for every Linear layer whose weight has shape `(in_dim, out_dim)` and
bias shape `(1, out_dim)`, and every input batch of shape `(B, in_dim)`,
`forward x` has shape `(B, out_dim)` and each entry is
`(x · weight)[i][j] + bias[0][j]`, the bias row broadcast across the batch. -/
theorem linear_forward_affine (p : LinearParams) (x : Mat) (B in_dim out_dim : ℕ)
    (hin : 0 < in_dim)
    (hW : isShape p.weight in_dim out_dim) (hb : isShape p.bias 1 out_dim)
    (hx : isShape x B in_dim) :
    isShape (Linear.forward p x) B out_dim ∧
    ∀ i j, i < B → j < out_dim →
      entry (Linear.forward p x) i j =
        ((List.range in_dim).map (fun k => entry x i k * entry p.weight k j)).sum +
          entry p.bias 0 j := by
  have hm : isShape (matmul x p.weight) B out_dim :=
    matmul_isShape x p.weight B in_dim out_dim hx hW hin
  refine ⟨broadcastAdd_isShape _ _ B out_dim hm hb, ?_⟩
  intro i j hi hj
  unfold Linear.forward
  rw [broadcastAdd_entry _ _ B out_dim hm hb i j hi hj,
    matmul_entry x p.weight B in_dim out_dim hx hW hin i j hi hj]

/-- Witness for C1: the spec scenario — weight `[[1,0],[0,1],[1,1]]`, bias
`[[0,0]]`, input `[[1,2,3]]` — satisfies the hypotheses, and the forward
output is `[[4,5]]`. -/
theorem linear_forward_affine_witness :
    (isShape (Linear.forward ⟨[[1,0],[0,1],[1,1]], [[0,0]]⟩ [[1,2,3]]) 1 2 ∧
      ∀ i j, i < 1 → j < 2 →
        entry (Linear.forward ⟨[[1,0],[0,1],[1,1]], [[0,0]]⟩ [[1,2,3]]) i j =
          ((List.range 3).map (fun k =>
            entry [[1,2,3]] i k *
              entry (LinearParams.mk [[1,0],[0,1],[1,1]] [[0,0]]).weight k j)).sum +
            entry (LinearParams.mk [[1,0],[0,1],[1,1]] [[0,0]]).bias 0 j) ∧
    Linear.forward ⟨[[1,0],[0,1],[1,1]], [[0,0]]⟩ [[1,2,3]] = [[4,5]] :=
  ⟨linear_forward_affine ⟨[[1,0],[0,1],[1,1]], [[0,0]]⟩ [[1,2,3]] 1 3 2
      (by decide) (by decide) (by decide) (by decide),
    by norm_num [Linear.forward, broadcastAdd, matmul, List.range_succ]⟩

/-- C2: for every Linear layer whose weight has shape `(in_dim, out_dim)` and
every upstream gradient `dy` of shape `(B, out_dim)`, `backward dy` equals
`dy · weightᵀ` and has shape `(B, in_dim)`: each entry is
`Σ k < out_dim, dy[i][k] * weight[j][k]`. -/
theorem linear_backward_transposed (p : LinearParams) (dy : Mat)
    (B in_dim out_dim : ℕ) (hin : 0 < in_dim) (hout : 0 < out_dim)
    (hW : isShape p.weight in_dim out_dim) (hdy : isShape dy B out_dim) :
    isShape (Linear.backward p dy) B in_dim ∧
    ∀ i j, i < B → j < in_dim →
      entry (Linear.backward p dy) i j =
        ((List.range out_dim).map (fun k => entry dy i k * entry p.weight j k)).sum := by
  have ht : isShape (transpose p.weight) out_dim in_dim :=
    transpose_isShape p.weight in_dim out_dim hW hin
  refine ⟨matmul_isShape dy _ B out_dim in_dim hdy ht hout, ?_⟩
  intro i j hi hj
  unfold Linear.backward
  rw [matmul_entry dy _ B out_dim in_dim hdy ht hout i j hi hj]
  refine congrArg List.sum ?_
  apply List.map_congr_left
  intro k hk
  rw [transpose_entry p.weight in_dim out_dim hW hin k j (List.mem_range.mp hk) hj]

/-- Witness for C2: the spec scenario — weight `[[1,0],[0,1],[1,1]]`,
upstream `[[1,1]]` — satisfies the hypotheses, and the downstream gradient is
`[[1,1,2]]`. -/
theorem linear_backward_transposed_witness :
    (isShape (Linear.backward ⟨[[1,0],[0,1],[1,1]], [[0,0]]⟩ [[1,1]]) 1 3 ∧
      ∀ i j, i < 1 → j < 3 →
        entry (Linear.backward ⟨[[1,0],[0,1],[1,1]], [[0,0]]⟩ [[1,1]]) i j =
          ((List.range 2).map (fun k =>
            entry [[1,1]] i k *
              entry (LinearParams.mk [[1,0],[0,1],[1,1]] [[0,0]]).weight j k)).sum) ∧
    Linear.backward ⟨[[1,0],[0,1],[1,1]], [[0,0]]⟩ [[1,1]] = [[1,1,2]] :=
  ⟨linear_backward_transposed ⟨[[1,0],[0,1],[1,1]], [[0,0]]⟩ [[1,1]] 1 3 2
      (by decide) (by decide) (by decide) (by decide),
    by norm_num [Linear.backward, matmul, transpose, List.range_succ]⟩

/-- C3: `Linear.gradX` returns the weight matrix unchanged for every input,
so its result is the same for any two inputs. -/
theorem linear_gradX_is_weight (p : LinearParams) (x x1 x2 : Mat) :
    Linear.gradX p x = p.weight ∧ Linear.gradX p x1 = Linear.gradX p x2 :=
  ⟨rfl, rfl⟩

/-- C4: for every layer implementing the protocol (any `FnOps`
implementation of `forward`/`gradX`) and every instance state, calling the
layer as a function caches `gradX` of the given input as the local gradient,
then computes the forward output, caches it, and returns it.  The cached
local gradient is `ops.gradX s.inner x`, a function of the pre-call
parameter state and the input only — it is computed without `forward` having
run and cannot depend on the output. -/
theorem function_call_protocol {σ : Type} (ops : FnOps σ) (s : FnState σ)
    (x : Mat) :
    (Function.call ops s x).1.gradX_local = some (ops.gradX s.inner x) ∧
    (Function.call ops s x).2 = ops.forward s.inner x ∧
    (Function.call ops s x).1.output = some (ops.forward s.inner x) ∧
    (Function.call ops s x).1.inner = s.inner :=
  ⟨rfl, rfl, rfl, rfl⟩

/-- C5: on a Sigmoid layer (no parameters) `update_weights` and `gradW`
resolve to the inherited `Layer` stubs: with any arguments they raise no
exception, return `None`, and leave the instance exactly as it was. -/
theorem sigmoid_stateless_noop (s : FnState SigmoidParams) (args : List Mat)
    (x : Mat) :
    Sigmoid.update_weights s args = (s, Except.ok none) ∧
    Sigmoid.gradW s x = (s, Except.ok none) :=
  ⟨rfl, rfl⟩

/-- C9: the frame property of the Linear layer — `forward`, `backward`,
`gradX`, `gradW` and `update_weights` all leave `weight` and `bias` exactly
unchanged (none of their bodies assigns an attribute), and calling the layer
as a function rewrites only the two cache attributes, never the parameters. -/
theorem linear_params_frame (s : FnState LinearParams) (x y dy : Mat)
    (args : List Mat) :
    (Linear.forwardCall s x).1 = s ∧
    (Linear.backwardCall s dy).1 = s ∧
    (Linear.gradXCall s x).1 = s ∧
    (Linear.gradWCall s y).1 = s ∧
    (Linear.update_weights s args).1 = s ∧
    (Linear.call s x).1.inner = s.inner :=
  ⟨rfl, rfl, rfl, rfl, rfl, rfl⟩

/-- C10: the Sigmoid layer really runs the inherited stubs: calling it as a
function caches Python `None` as the local gradient (the `gradX` resolved by
`__call__` is the base-class stub, not the separately named `dx` method,
which nothing invokes), while the forward output is computed and returned;
and `backward` returns `None` for every upstream gradient. -/
theorem sigmoid_inherited_stubs (expFn : ℚ → ℚ) (s : FnState SigmoidParams)
    (x dy : Mat) :
    (Sigmoid.call expFn s x).1.gradX_local = some none ∧
    (Sigmoid.call expFn s x).2 = some (Sigmoid.forward expFn x) ∧
    Sigmoid.backward s dy = (s, none) :=
  ⟨rfl, rfl, rfl⟩

/-- Counterexample for C6: on a freshly constructed Linear instance (both
cache attributes absent, `gradX_local = none`) with the scenario weight,
invoking `backward` with upstream `[[1,1]]` does not fail: it returns the
result `[[1,1,2]]`, computed from the weight alone. -/
theorem linear_backward_before_forward_returns :
    (FnState.mk (LinearParams.mk [[1,0],[0,1],[1,1]] [[0,0]]) none
        none).gradX_local = none ∧
    (Linear.backwardCall
        ⟨⟨[[1,0],[0,1],[1,1]], [[0,0]]⟩, none, none⟩ [[1,1]]).2 =
      Except.ok (some [[1,1,2]]) :=
  ⟨rfl, by norm_num [Linear.backwardCall, Linear.backward, matmul, transpose,
    List.range_succ]⟩

/-- C6 (amended): invoking `backward` before any forward call does not fail:
`Linear.backward` never reads the local-gradient cache, so even with the
cache absent it returns `dy · weightᵀ` computed from the weight alone and
leaves the instance unchanged; the base `Function.backward` stub likewise
returns `None` rather than raising. -/
theorem linear_backward_ignores_cache (s : FnState LinearParams) (dy : Mat)
    (h : s.gradX_local = none) :
    (Linear.backwardCall s dy).2 =
      Except.ok (some (matmul dy (transpose s.inner.weight))) ∧
    (Linear.backwardCall s dy).1 = s ∧
    Function.backwardStub s dy = (s, none) :=
  ⟨rfl, rfl, rfl⟩

/-- Witness for C6 (amended): a fresh scenario instance has `gradX_local`
absent, and `backward` on it returns `ok` of the matrix product. -/
theorem linear_backward_ignores_cache_witness :
    (Linear.backwardCall
        ⟨⟨[[1,0],[0,1],[1,1]], [[0,0]]⟩, none, none⟩ [[2,3]]).2 =
      Except.ok (some (matmul [[2,3]]
        (transpose (LinearParams.mk [[1,0],[0,1],[1,1]] [[0,0]]).weight))) ∧
    (Linear.backwardCall
        ⟨⟨[[1,0],[0,1],[1,1]], [[0,0]]⟩, none, none⟩ [[2,3]]).1 =
      ⟨⟨[[1,0],[0,1],[1,1]], [[0,0]]⟩, none, none⟩ ∧
    Function.backwardStub
        (FnState.mk (LinearParams.mk [[1,0],[0,1],[1,1]] [[0,0]]) none none)
        [[2,3]] =
      (⟨⟨[[1,0],[0,1],[1,1]], [[0,0]]⟩, none, none⟩, none) :=
  linear_backward_ignores_cache
    ⟨⟨[[1,0],[0,1],[1,1]], [[0,0]]⟩, none, none⟩ [[2,3]] rfl

/-- Counterexample for C7: on the scenario layer and input `[[1,2,3]]`,
`Linear.gradW` returns `None` — it does not produce the outer combination
`inputᵀ · upstream`, which for upstream `[[1,1]]` would be the (3, 2) matrix
`[[1,1],[2,2],[3,3]]`. -/
theorem linear_gradW_returns_none_on_scenario :
    Linear.gradW ⟨[[1,0],[0,1],[1,1]], [[0,0]]⟩ [[1,2,3]] = none ∧
    matmul (transpose [[1,2,3]]) [[1,1]] = [[1,1],[2,2],[3,3]] :=
  ⟨rfl, by norm_num [matmul, transpose, List.range_succ]⟩

/-- C7 (amended): `Linear.gradW` is invokable — it accepts the input, raises
nothing and leaves the instance unchanged — but it is a `pass` stub: it
returns `None` for every layer and input, and no `inputᵀ · upstream`
computation is performed. -/
theorem linear_gradW_stub (p : LinearParams) (s : FnState LinearParams)
    (x : Mat) :
    Linear.gradW p x = none ∧ Linear.gradWCall s x = (s, none) :=
  ⟨rfl, rfl⟩

theorem mkMat_isShape (r c : ℕ) (f : ℕ → ℕ → ℚ) : isShape (mkMat r c f) r c := by
  constructor
  · simp [mkMat]
  · intro row hrow
    simp only [mkMat, List.mem_map] at hrow
    obtain ⟨i, _, hrow⟩ := hrow
    rw [← hrow, List.length_map, List.length_range]

/-- Counterexample for C8: `Linear(5, 0)` — a non-positive output dimension —
is not rejected: `init_weights` succeeds and produces a layer whose weight is
the `(5, 0)` array (five empty rows) and whose bias is the `(1, 0)` array
(`np.random.rand` accepts a zero dimension). -/
theorem linear_init_accepts_zero_out_dim :
    Linear.init_weights 5 0 (fun _ _ => 0) (fun _ _ => 0) 1 =
      Except.ok ⟨[[], [], [], [], []], [[]]⟩ := by
  simp [Linear.init_weights, mkMat]

/-- C8 (amended): construction fails (with the interpreter's incidental
errors: `math domain error` from `sqrt` for a negative input dimension,
`float division by zero` for a zero input dimension, NumPy's
`negative dimensions are not allowed` for a negative output dimension)
exactly when `in_dim ≤ 0` or `out_dim < 0`; a zero output dimension is
accepted and produces a layer with weight of shape `(in_dim, 0)` and bias of
shape `(1, 0)`. -/
theorem linear_init_rejects_iff (in_dim out_dim : Int)
    (randW randB : ℕ → ℕ → ℚ) (s : ℚ) :
    ((in_dim ≤ 0 ∨ out_dim < 0) →
      ∃ e, Linear.init_weights in_dim out_dim randW randB s =
        Except.error e) ∧
    (0 < in_dim → 0 ≤ out_dim →
      ∃ p, Linear.init_weights in_dim out_dim randW randB s = Except.ok p ∧
        isShape p.weight in_dim.toNat out_dim.toNat ∧
        isShape p.bias 1 out_dim.toNat) := by
  constructor
  · intro h
    unfold Linear.init_weights
    by_cases h1 : in_dim < 0
    · exact ⟨_, by rw [if_pos h1]⟩
    · by_cases h2 : in_dim = 0
      · exact ⟨_, by rw [if_neg h1, if_pos h2]⟩
      · have h3 : out_dim < 0 := by
          rcases h with h | h
          · omega
          · exact h
        exact ⟨_, by rw [if_neg h1, if_neg h2, if_pos h3]⟩
  · intro hin hout
    unfold Linear.init_weights
    rw [if_neg (by omega), if_neg (by omega), if_neg (by omega)]
    exact ⟨_, rfl, mkMat_isShape _ _ _, mkMat_isShape _ _ _⟩

/-- Witness for C8 (amended): `Linear(-1, 2)` fails, while `Linear(3, 2)`
succeeds with a `(3, 2)` weight and a `(1, 2)` bias. -/
theorem linear_init_rejects_iff_witness :
    (∃ e, Linear.init_weights (-1) 2 (fun _ _ => 0) (fun _ _ => 0) 1 =
      Except.error e) ∧
    (∃ p, Linear.init_weights 3 2 (fun _ _ => 0) (fun _ _ => 0) 1 =
      Except.ok p ∧
      isShape p.weight (Int.toNat 3) (Int.toNat 2) ∧
      isShape p.bias 1 (Int.toNat 2)) :=
  ⟨(linear_init_rejects_iff (-1) 2 (fun _ _ => 0) (fun _ _ => 0) 1).1
      (Or.inl (by decide)),
    (linear_init_rejects_iff 3 2 (fun _ _ => 0) (fun _ _ => 0) 1).2
      (by decide) (by decide)⟩

